import Mathlib

/-!
Verification development for the short-link service of the `tools` repository.

The definitions below are a shallow embedding of the Go sources:
- `services/shortcode/internal/service/shortcode.go` (service layer),
- the repository layer (`shortCodeRepository` over PostgreSQL/GORM and Redis),
- the HTTP middleware rate limiter (`RateLimiter.Allow`),
- the detailed-stats hours parameter parsing in `Handler.GetDetailedStats`.

Modelling conventions:
- Timestamps are natural numbers counting nanoseconds (matching Go
  `time.Duration` units); `nsPerHour` is `time.Hour`.
- The durable store is a list of rows.  GORM's soft-delete default scope
  (`deleted_at IS NULL`) is modelled by a `deleted` flag that every query
  except the raw unique-index check filters on.  The unique index on `code`
  spans all physical rows, soft-deleted ones included.
- The Redis cache is an association list from keys to records with an
  absolute expiry instant; `SET key value EX ttl` stores `now + ttl`.
- Fallible repository queries of `GetDetailedStats` support fault injection
  through the `faults` field of the state, modelling backend failures.
- Randomness (`crypto/rand.Int(rand.Reader, 62)`) is modelled by an oracle
  `Nat → Fin 62` giving the successive bounded random draws.
-/

/-- The 62-character code alphabet from `service/shortcode.go`. -/
def charset : String :=
  "abcdefghijklmnopqrstuvwxyzABCDEFGHIJKLMNOPQRSTUVWXYZ0123456789"

def charsetChars : List Char := charset.toList

/-- `defaultCodeLength` constant of the service. -/
def defaultCodeLength : Nat := 6

/-- `maxRetries` constant of the service. -/
def maxRetries : Nat := 5

/-- One hour in nanoseconds (`time.Hour`). -/
def nsPerHour : Nat := 3600000000000

/-- Cache TTL used by `GetByCode` (24 hours). -/
def cacheTTLNs : Nat := 24 * nsPerHour

/-- `generateRandomCode`: draws `length` bounded random indices into the
62-character alphabet.  `draw i` is the i-th value of
`rand.Int(rand.Reader, 62)`. -/
def generateRandomCode (draw : Nat → Fin 62) (length : Nat) : String :=
  String.mk ((List.range length).map (fun i => charsetChars.getD (draw i).val 'a'))

/-- `isValidCode`: the regular expression `^[a-zA-Z0-9]{4,50}$`. -/
def isValidCode (code : String) : Bool :=
  let cs := code.toList
  decide (4 ≤ cs.length) && decide (cs.length ≤ 50) && cs.all Char.isAlphanum

/-- Scheme extraction of Go `net/url.Parse` (`getScheme`): scans the prefix of
the raw URL up to a colon; returns `none` when the URL has no scheme or the
scheme is malformed.  Parse failures occurring after the scheme are not
modelled (no claim depends on such inputs). -/
def getScheme : List Char → List Char → Option (List Char)
  | _, [] => none
  | acc, c :: rest =>
    if c.isAlpha then getScheme (acc ++ [c]) rest
    else if c.isDigit || c == '+' || c == '-' || c == '.' then
      (if acc.isEmpty then none else getScheme (acc ++ [c]) rest)
    else if c == ':' then
      (if acc.isEmpty then none else some acc)
    else none

/-- `isValidURL`: the URL must parse and have scheme `http` or `https`
(Go lower-cases the scheme). -/
def isValidURL (rawURL : String) : Bool :=
  match getScheme [] rawURL.toList with
  | some sch =>
    let scheme := String.mk (sch.map Char.toLower)
    scheme == "http" || scheme == "https"
  | none => false

/-- A row of the `short_codes` table (`model.ShortCode`).  `deleted` models
`gorm.DeletedAt` being set. -/
structure ShortCodeRec where
  id : Nat
  code : String
  originalURL : String
  createdAt : Nat
  expiresAt : Option Nat
  clickCount : Int
  lastAccessedAt : Option Nat
  deleted : Bool
deriving DecidableEq, Repr

/-- A row of the `access_statistics` table (`model.AccessStatistics`). -/
structure AccessStat where
  shortCodeId : Nat
  ipAddress : String
  country : String
  region : String
  city : String
  hourBucket : Nat
  accessCount : Int
deriving DecidableEq, Repr

/-- A row of the `click_logs` table (`model.ClickLog`). -/
structure ClickLogRec where
  shortCodeId : Nat
  ipAddress : String
  userAgent : String
  referer : String
  createdAt : Nat
deriving DecidableEq, Repr

/-- A Redis cache entry: the cached record plus its absolute expiry time. -/
structure CacheEntry where
  entryRec : ShortCodeRec
  expireAt : Nat
deriving DecidableEq, Repr

/-- Tags for the fallible queries of `GetDetailedStats`, used for fault
injection. -/
inductive QTag where
  | base
  | uniqueIPs
  | hourly
  | location
  | recent
deriving DecidableEq, Repr

/-- The combined durable-store and cache state seen by the repository. -/
structure RepoState where
  codes : List ShortCodeRec
  accessStats : List AccessStat
  clickLogs : List ClickLogRec
  cache : List (String × CacheEntry)
  faults : List QTag
deriving DecidableEq, Repr

/-- Errors surfaced by the repository layer. -/
inductive RepoErr where
  | notFound
  | duplicateKey
  | queryFault (t : QTag)
deriving DecidableEq, Repr

/-- Redis `GET`: a present, unexpired entry is a hit; everything else is a
miss. -/
def cacheGet (cache : List (String × CacheEntry)) (key : String) (now : Nat) :
    Option ShortCodeRec :=
  match cache.find? (fun e => e.1 == key) with
  | some e => if now < e.2.expireAt then some e.2.entryRec else none
  | none => none

/-- Redis `SET key value EX 24h`. -/
def cacheSet (cache : List (String × CacheEntry)) (key : String)
    (r : ShortCodeRec) (now : Nat) : List (String × CacheEntry) :=
  (key, ⟨r, now + cacheTTLNs⟩) :: cache.filter (fun e => !(e.1 == key))

/-- Redis `DEL key`. -/
def cacheDel (cache : List (String × CacheEntry)) (key : String) :
    List (String × CacheEntry) :=
  cache.filter (fun e => !(e.1 == key))

/-- The WHERE clause of `GetByCode`: `expires_at IS NULL OR expires_at > now`. -/
def expiryLive (e : Option Nat) (now : Nat) : Bool :=
  match e with
  | none => true
  | some t => decide (now < t)

/-- `shortCodeRepository.GetByCode`: cache-aside read.  The cache hit path
returns the cached record without re-checking expiry; the database path
filters on non-deleted, non-expired rows and repopulates the cache. -/
def repoGetByCode (st : RepoState) (code : String) (now : Nat) :
    Except RepoErr ShortCodeRec × RepoState :=
  match cacheGet st.cache code now with
  | some r => (.ok r, st)
  | none =>
    match st.codes.find? (fun r => r.code == code && !r.deleted && expiryLive r.expiresAt now) with
    | some r => (.ok r, { st with cache := cacheSet st.cache code r now })
    | none => (.error .notFound, st)

/-- `model.ShortCodeStats`. -/
structure ShortCodeStats where
  code : String
  originalURL : String
  clickCount : Int
  createdAt : Nat
  lastAccessedAt : Option Nat
deriving DecidableEq, Repr

/-- `shortCodeRepository.GetStats`: looks the row up by code only (soft-deleted
rows are excluded by the GORM default scope, but there is no expiry filter). -/
def repoGetStats (st : RepoState) (code : String) :
    Except RepoErr ShortCodeStats × RepoState :=
  match st.codes.find? (fun r => r.code == code && !r.deleted) with
  | some r => (.ok ⟨r.code, r.originalURL, r.clickCount, r.createdAt, r.lastAccessedAt⟩, st)
  | none => (.error .notFound, st)

/-- `shortCodeRepository.CodeExists`: `COUNT(*)` over non-deleted rows with the
given code, compared against zero. -/
def repoCodeExists (st : RepoState) (code : String) : Bool :=
  decide (0 < st.codes.countP (fun r => r.code == code && !r.deleted))

/-- `shortCodeRepository.Create`: a single durable insert.  The PostgreSQL
unique index on `code` spans every physical row, soft-deleted rows included,
so the insert fails with a duplicate-key error whenever any row carries the
same code. -/
def repoCreate (st : RepoState) (r : ShortCodeRec) : Except RepoErr RepoState :=
  if st.codes.any (fun q => q.code == r.code) then .error .duplicateKey
  else .ok { st with codes := st.codes ++ [r] }

/-- `shortCodeRepository.Delete`: invalidates the cache (best effort), then
soft-deletes every non-deleted row with the code; zero affected rows is
reported as not found. -/
def repoDelete (st : RepoState) (code : String) :
    Except RepoErr Unit × RepoState :=
  let st1 := { st with cache := cacheDel st.cache code }
  let affected := st1.codes.countP (fun r => r.code == code && !r.deleted)
  let codes' := st1.codes.map (fun r =>
    if r.code == code && !r.deleted then { r with deleted := true } else r)
  if affected == 0 then (.error .notFound, st1)
  else (.ok (), { st1 with codes := codes' })

/-- The upsert key of `access_statistics`:
`(short_code_id, ip_address, hour_bucket)`. -/
def statKey (a : AccessStat) : Nat × String × Nat :=
  (a.shortCodeId, a.ipAddress, a.hourBucket)

/-- The WHERE clause of `RecordAccessStats`. -/
def statKeyMatch (s r : AccessStat) : Bool :=
  r.shortCodeId == s.shortCodeId && r.ipAddress == s.ipAddress &&
    r.hourBucket == s.hourBucket

/-- `UPDATE ... SET access_count = access_count + 1` on the row found by
`First` (the first row matching the key). -/
def bumpFirstStat (s : AccessStat) : List AccessStat → List AccessStat
  | [] => []
  | r :: rs =>
    if statKeyMatch s r then { r with accessCount := r.accessCount + 1 } :: rs
    else r :: bumpFirstStat s rs

/-- `shortCodeRepository.RecordAccessStats`: find the row for the key; insert
it with count 1 when absent, otherwise increment its count by one. -/
def repoRecordAccessStats (st : RepoState) (s : AccessStat) : RepoState :=
  match st.accessStats.find? (statKeyMatch s) with
  | none => { st with accessStats := st.accessStats ++ [{ s with accessCount := 1 }] }
  | some _ => { st with accessStats := bumpFirstStat s st.accessStats }

/-- `model.HourlyStatItem`. -/
structure HourlyStatItem where
  hourBucket : Nat
  accessCount : Int
  uniqueIPs : Int
deriving DecidableEq, Repr

/-- `model.LocationStatItem`. -/
structure LocationStatItem where
  country : String
  region : String
  city : String
  accessCount : Int
deriving DecidableEq, Repr

/-- `model.RecentAccessItem`. -/
structure RecentAccessItem where
  ipAddress : String
  country : String
  region : String
  city : String
  accessTime : Nat
  userAgent : String
deriving DecidableEq, Repr

/-- `model.DetailedStats`. -/
structure DetailedStats where
  code : String
  originalURL : String
  totalClicks : Int
  uniqueIPs : Int
  createdAt : Nat
  lastAccessedAt : Option Nat
  hourlyStats : List HourlyStatItem
  locationStats : List LocationStatItem
  recentAccesses : List RecentAccessItem
deriving DecidableEq, Repr

/-- Insertion into a sorted list, used to model SQL `ORDER BY`. -/
def insertSorted {α : Type} (le : α → α → Bool) (x : α) : List α → List α
  | [] => [x]
  | y :: ys => if le x y then x :: y :: ys else y :: insertSorted le x ys

/-- Insertion sort, used to model SQL `ORDER BY`. -/
def sortByB {α : Type} (le : α → α → Bool) : List α → List α
  | [] => []
  | x :: xs => insertSorted le x (sortByB le xs)

/-- Time truncated to the hour (`DATE_TRUNC` / `time.Truncate(time.Hour)`). -/
def truncHour (t : Nat) : Nat := t / nsPerHour * nsPerHour

/-- The lookback filter applied by every sub-query when `hours > 0`:
`hour_bucket >= now - hours*time.Hour` (compared over the integers). -/
def inLookback (hours : Int) (now t : Nat) : Bool :=
  if hours > 0 then decide ((now : Int) - hours * (nsPerHour : Int) ≤ (t : Int)) else true

set_option maxHeartbeats 2000000 in
/-- `shortCodeRepository.GetDetailedStats`: base row lookup by code (no expiry
filter), then four sub-queries (distinct-IP count, hourly series, location
breakdown, recent accesses joined to the hourly aggregates).  Each query can be
failed through fault injection; a failure aborts the operation and propagates
the query error. -/
def repoGetDetailedStats (st : RepoState) (code : String) (hours : Int) (now : Nat) :
    Except RepoErr DetailedStats × RepoState :=
  if st.faults.contains .base then (.error (.queryFault .base), st) else
  match st.codes.find? (fun r => r.code == code && !r.deleted) with
  | none => (.error .notFound, st)
  | some sc =>
    if st.faults.contains .uniqueIPs then (.error (.queryFault .uniqueIPs), st) else
    let filtered := st.accessStats.filter
      (fun a => a.shortCodeId == sc.id && inLookback hours now a.hourBucket)
    let uniqueIPs : Int := ((filtered.map (fun a => a.ipAddress)).eraseDups).length
    if st.faults.contains .hourly then (.error (.queryFault .hourly), st) else
    let buckets := (sortByB (fun a b => decide (b ≤ a))
      ((filtered.map (fun a => a.hourBucket)).eraseDups)).take 100
    let hourlyStats := buckets.map (fun b =>
      let rows := filtered.filter (fun a => a.hourBucket == b)
      HourlyStatItem.mk b ((rows.map (fun a => a.accessCount)).sum)
        (((rows.map (fun a => a.ipAddress)).eraseDups).length))
    if st.faults.contains .location then (.error (.queryFault .location), st) else
    let locKeys := (filtered.map (fun a => (a.country, a.region, a.city))).eraseDups
    let locItems := locKeys.map (fun k =>
      let rows := filtered.filter (fun a =>
        a.country == k.1 && a.region == k.2.1 && a.city == k.2.2)
      LocationStatItem.mk k.1 k.2.1 k.2.2 ((rows.map (fun a => a.accessCount)).sum))
    let locationStats := (sortByB (fun a b => decide (b.accessCount ≤ a.accessCount)) locItems).take 50
    if st.faults.contains .recent then (.error (.queryFault .recent), st) else
    let logs := st.clickLogs.filter (fun l =>
      l.shortCodeId == sc.id && inLookback hours now l.createdAt)
    let recentAccesses := ((sortByB (fun a b => decide (b.createdAt ≤ a.createdAt)) logs).take 20).map
      (fun l =>
        match st.accessStats.find? (fun a =>
          a.ipAddress == l.ipAddress && a.shortCodeId == l.shortCodeId &&
            a.hourBucket == truncHour l.createdAt) with
        | some a => RecentAccessItem.mk l.ipAddress a.country a.region a.city l.createdAt l.userAgent
        | none => RecentAccessItem.mk l.ipAddress "" "" "" l.createdAt l.userAgent)
    (.ok ⟨sc.code, sc.originalURL, sc.clickCount, uniqueIPs, sc.createdAt,
      sc.lastAccessedAt, hourlyStats, locationStats, recentAccesses⟩, st)

/-- Service-level errors (`service/shortcode.go`).  `storageError` stands for
any non-sentinel wrapped error (`fmt.Errorf("...: %w", err)`), which the
handler's `errors.Is` chain cannot match. -/
inductive SvcErr where
  | invalidURL
  | codeExists
  | codeNotFound
  | invalidCode
  | generationExhausted
  | storageError
deriving DecidableEq, Repr

/-- Storage operations performed by `CreateShortCode`, recorded for the
claims about which storage accesses a request triggers. -/
inductive StorageOp where
  | existsCheck (code : String)
  | createWrite (code : String)
deriving DecidableEq, Repr

/-- `model.CreateShortCodeRequest`. -/
structure CreateReq where
  url : String
  customCode : String
  expiresIn : Int
deriving DecidableEq, Repr

/-- `model.CreateShortCodeResponse`. -/
structure CreateResp where
  shortCode : String
  shortURL : String
  originalURL : String
  createdAt : Nat
  expiresAt : Option Nat
deriving DecidableEq, Repr

/-- The fresh serial primary key assigned by the database on insert. -/
def nextId (st : RepoState) : Nat := (st.codes.map (fun r => r.id)).foldr max 0 + 1

/-- The i-th candidate drawn by the generation loop: `generateRandomCode(6)`
consuming the next six random draws. -/
def candidateCode (draw : Nat → Fin 62) (i : Nat) : String :=
  generateRandomCode (fun j => draw (defaultCodeLength * i + j)) defaultCodeLength

/-- The retry loop body of `generateUniqueCode`: `i` is the current attempt
index, the second argument the remaining attempts. -/
def generateUniqueCodeAux (st : RepoState) (draw : Nat → Fin 62) :
    Nat → Nat → Except Unit String × List StorageOp
  | _, 0 => (.error (), [])
  | i, fuel + 1 =>
    let code := candidateCode draw i
    if repoCodeExists st code then
      let r := generateUniqueCodeAux st draw (i + 1) fuel
      (r.1, .existsCheck code :: r.2)
    else (.ok code, [.existsCheck code])

/-- `generateUniqueCode`: up to `maxRetries` candidates, each checked for
existence; exhaustion yields the generation error. -/
def generateUniqueCode (st : RepoState) (draw : Nat → Fin 62) :
    Except Unit String × List StorageOp :=
  generateUniqueCodeAux st draw 0 maxRetries

/-- The tail of `CreateShortCode` after a code has been settled: compute the
expiration, build the row and perform the durable write.  A write failure is
wrapped generically (`failed to create short code: %w`), hence `storageError`. -/
def finishCreate (baseURL : String) (st : RepoState) (req : CreateReq)
    (code : String) (now : Nat) (ops : List StorageOp) :
    Except SvcErr CreateResp × RepoState × List StorageOp :=
  let expiresAt : Option Nat :=
    if req.expiresIn > 0 then some (now + req.expiresIn.toNat * nsPerHour) else none
  let newRec : ShortCodeRec :=
    ⟨nextId st, code, req.url, now, expiresAt, 0, none, false⟩
  match repoCreate st newRec with
  | .error _ => (.error .storageError, st, ops ++ [.createWrite code])
  | .ok st' =>
    (.ok ⟨code, baseURL ++ "/" ++ code, req.url, now, expiresAt⟩, st',
      ops ++ [.createWrite code])

/-- `shortCodeService.CreateShortCode`: validate the URL; with a custom code,
validate its format and check existence; otherwise run the generation loop;
then perform the durable write. -/
def createShortCode (baseURL : String) (st : RepoState) (req : CreateReq)
    (now : Nat) (draw : Nat → Fin 62) :
    Except SvcErr CreateResp × RepoState × List StorageOp :=
  if !isValidURL req.url then (.error .invalidURL, st, [])
  else if !(req.customCode == "") then
    if !isValidCode req.customCode then (.error .invalidCode, st, [])
    else if repoCodeExists st req.customCode then
      (.error .codeExists, st, [.existsCheck req.customCode])
    else finishCreate baseURL st req req.customCode now [.existsCheck req.customCode]
  else
    match generateUniqueCode st draw with
    | (.error _, ops) => (.error .generationExhausted, st, ops)
    | (.ok code, ops) => finishCreate baseURL st req code now ops

/-- `shortCodeService.GetOriginalURL`: any repository error becomes
`ErrCodeNotFound`. -/
def getOriginalURL (st : RepoState) (code : String) (now : Nat) :
    Except SvcErr String × RepoState :=
  match repoGetByCode st code now with
  | (.ok r, st') => (.ok r.originalURL, st')
  | (.error _, st') => (.error .codeNotFound, st')

/-- `shortCodeService.GetStats`: any repository error becomes
`ErrCodeNotFound`. -/
def svcGetStats (st : RepoState) (code : String) :
    Except SvcErr ShortCodeStats × RepoState :=
  match repoGetStats st code with
  | (.ok s, st') => (.ok s, st')
  | (.error _, st') => (.error .codeNotFound, st')

/-- `shortCodeService.GetDetailedStats`: any repository error — including a
sub-query storage failure — becomes `ErrCodeNotFound`. -/
def svcGetDetailedStats (st : RepoState) (code : String) (hours : Int) (now : Nat) :
    Except SvcErr DetailedStats × RepoState :=
  match repoGetDetailedStats st code hours now with
  | (.ok s, st') => (.ok s, st')
  | (.error _, st') => (.error .codeNotFound, st')

/-- `shortCodeService.DeleteShortCode` simply forwards to the repository. -/
def svcDeleteShortCode (st : RepoState) (code : String) :
    Except RepoErr Unit × RepoState :=
  repoDelete st code

/-- The HTTP status the create handler maps each service error to
(`Handler.CreateShortCode`'s `errors.Is` chain; anything non-sentinel falls
through to 500). -/
def handlerCreateStatus : SvcErr → Nat
  | .invalidURL => 400
  | .codeExists => 409
  | .invalidCode => 400
  | _ => 500

/-- Per-client state of the rate limiter (`visitor`). -/
structure Visitor where
  requests : Nat
  resetTime : Nat
deriving DecidableEq, Repr

/-- Rate limiter configuration (`rate` requests per `window`). -/
structure RLCfg where
  rate : Nat
  window : Nat
deriving DecidableEq, Repr

/-- The visitors map, as an association list keyed by client IP. -/
abbrev RLState : Type := List (String × Visitor)

/-- Map lookup in the visitors table. -/
def rlLookup (s : RLState) (ip : String) : Option Visitor :=
  match s.find? (fun e => e.1 == ip) with
  | some e => some e.2
  | none => none

/-- Map update in the visitors table. -/
def rlSet (s : RLState) (ip : String) (v : Visitor) : RLState :=
  (ip, v) :: s.filter (fun e => !(e.1 == ip))

/-- `RateLimiter.Allow`: fresh window (count 1) when the client has no entry
or its window elapsed (`now.After(resetTime)`); increment and admit while
under `rate`; otherwise reject. -/
def rlAllow (cfg : RLCfg) (s : RLState) (ip : String) (now : Nat) :
    Bool × RLState :=
  match rlLookup s ip with
  | none => (true, rlSet s ip ⟨1, now + cfg.window⟩)
  | some v =>
    if now > v.resetTime then (true, rlSet s ip ⟨1, now + cfg.window⟩)
    else if v.requests < cfg.rate then (true, rlSet s ip ⟨v.requests + 1, v.resetTime⟩)
    else (false, s)

/-- A sequence of `Allow` calls from one client at the given times. -/
def rlAllowTrace (cfg : RLCfg) (s : RLState) (ip : String) :
    List Nat → List Bool × RLState
  | [] => ([], s)
  | t :: ts =>
    let r := rlAllow cfg s ip t
    let rest := rlAllowTrace cfg r.2 ip ts
    (r.1 :: rest.1, rest.2)

/-- `leadingInt` of Go `time.ParseDuration`: consume leading decimal digits
into a 64-bit value with Go's overflow checks; `none` is the overflow error. -/
def leadingInt : Nat → List Char → Option (Nat × List Char)
  | x, [] => some (x, [])
  | x, c :: cs =>
    if c.isDigit then
      if x > 9223372036854775807 / 10 then none
      else
        let y := x * 10 + (c.toNat - 48)
        if y > 9223372036854775808 then none else leadingInt y cs
    else some (x, c :: cs)

/-- `leadingFraction` of Go `time.ParseDuration`: consume fraction digits,
silently stopping the accumulation on overflow while still consuming input.
Returns the accumulated value, the scale and the rest. -/
def leadingFraction : Nat → Nat → Bool → List Char → Nat × Nat × List Char
  | x, scale, _, [] => (x, scale, [])
  | x, scale, overflow, c :: cs =>
    if c.isDigit then
      if overflow then leadingFraction x scale true cs
      else if x > 9223372036854775807 / 10 then leadingFraction x scale true cs
      else
        let y := x * 10 + (c.toNat - 48)
        if y > 9223372036854775808 then leadingFraction x scale true cs
        else leadingFraction y (scale * 10) false cs
    else (x, scale, c :: cs)

/-- The `unitMap` of Go `time.ParseDuration`, in nanoseconds. -/
def unitMap : List (String × Nat) :=
  [("ns", 1), ("us", 1000), ("µs", 1000), ("μs", 1000), ("ms", 1000000),
    ("s", 1000000000), ("m", 60000000000), ("h", 3600000000000)]

/-- A unit name is a maximal run of characters that are neither digits nor a
dot. -/
def isUnitChar (c : Char) : Bool := !(c == '.' || c.isDigit)

/-- The main loop of Go `time.ParseDuration`: repeatedly parse
`[0-9]*(\.[0-9]*)?unit` and accumulate nanoseconds with Go's overflow checks.
The fractional contribution `uint64(float64(f) * (float64(unit) / scale))` is
modelled by the truncating integer division `f * unit / scale` (exact for all
but float-rounding-extreme inputs, which no claim exercises).  The first
argument is recursion fuel, always at least the length of the input. -/
def parseDurationLoop : Nat → List Char → Nat → Option Nat
  | 0, _, _ => none
  | _, [], d => some d
  | fuel + 1, s, d =>
    match s with
    | [] => some d
    | c :: _ =>
      if !(c == '.' || c.isDigit) then none
      else
        match leadingInt 0 s with
        | none => none
        | some (v, s1) =>
          let pre := !(s1.length == s.length)
          let fr :=
            match s1 with
            | '.' :: rest =>
              let f := leadingFraction 0 1 false rest
              (f.1, f.2.1, f.2.2, !(f.2.2.length == rest.length))
            | _ => ((0 : Nat), (1 : Nat), s1, false)
          let f := fr.1
          let scale := fr.2.1
          let s2 := fr.2.2.1
          let post := fr.2.2.2
          if !pre && !post then none
          else
            let u := s2.takeWhile isUnitChar
            if u.length == 0 then none
            else
              match unitMap.find? (fun e => e.1 == String.mk u) with
              | none => none
              | some e =>
                let unit := e.2
                if v > 9223372036854775808 / unit then none
                else
                  let v1 := v * unit
                  let v2 := if f > 0 then v1 + f * unit / scale else v1
                  if f > 0 && v2 > 9223372036854775808 then none
                  else
                    let d' := d + v2
                    if d' > 9223372036854775808 then none
                    else parseDurationLoop fuel (s2.drop u.length) d'

/-- Go `time.ParseDuration`: optional sign, the special case `"0"`, then the
number/unit loop; the result is signed nanoseconds.  `none` is a parse
error. -/
def parseDuration (s : String) : Option Int :=
  let cs := s.toList
  let signed : Bool × List Char :=
    match cs with
    | '-' :: r => (true, r)
    | '+' :: r => (false, r)
    | r => (false, r)
  let neg := signed.1
  let cs1 := signed.2
  if cs1 == ['0'] then some 0
  else if cs1.isEmpty then none
  else
    match parseDurationLoop (cs1.length + 1) cs1 0 with
    | none => none
    | some d =>
      if neg then some (-(d : Int))
      else if d > 9223372036854775807 then none
      else some (d : Int)

/-- `int(h.Hours())`: the whole number of hours of a duration, truncated
toward zero. -/
def wholeHours (d : Int) : Int := Int.tdiv d (nsPerHour : Int)

/-- The hours-parameter handling of `Handler.GetDetailedStats`: default 0; a
non-empty query value is parsed as the duration `value + "h"`, successful
parses contribute `int(h.Hours())`, failing parses leave the default. -/
def parseHoursParam (hoursParam : String) : Int :=
  if hoursParam == "" then 0
  else
    match parseDuration (hoursParam ++ "h") with
    | some d => wholeHours d
    | none => 0

/-- Decidable equality on `Except`, for evaluating the model on concrete
inputs. -/
instance {ε α : Type} [DecidableEq ε] [DecidableEq α] : DecidableEq (Except ε α) := by
  intro a b
  cases a <;> cases b
  case error.error x y =>
    exact if h : x = y then .isTrue (by rw [h]) else .isFalse (by simp [h])
  case ok.ok x y =>
    exact if h : x = y then .isTrue (by rw [h]) else .isFalse (by simp [h])
  case error.ok x y => exact .isFalse (by simp)
  case ok.error x y => exact .isFalse (by simp)

/-! ## Concrete scenario data for witnesses and counterexamples -/

/-- A fixed random oracle (always drawing index 0, i.e. the letter a). -/
def drawZero : Nat → Fin 62 := fun _ => ⟨0, by omega⟩

/-- The empty store. -/
def emptySt : RepoState := ⟨[], [], [], [], []⟩

/-- A creation request with custom code `abcd` and a one-hour expiration. -/
def reqAbcd : CreateReq := ⟨"http://example.com", "abcd", 1⟩

/-- The store after `reqAbcd` was created at time 0. -/
def stAbcd : RepoState :=
  ⟨[⟨1, "abcd", "http://example.com", 0, some nsPerHour, 0, none, false⟩], [], [], [], []⟩

/-- The response of creating `reqAbcd` at time 0 against the empty store. -/
def respAbcd : CreateResp := ⟨"abcd", "b/abcd", "http://example.com", 0, some nsPerHour⟩

/-- A store whose only row carries code `abcd` but is soft-deleted: the unique
index still contains the code while every scoped query ignores the row. -/
def stSoftDeleted : RepoState :=
  ⟨[⟨1, "abcd", "http://old.example.com", 0, none, 0, none, true⟩], [], [], [], []⟩

/-- A store whose only row expired at time 10 (and is not deleted). -/
def stExpired : RepoState :=
  ⟨[⟨1, "abcd", "http://x.example.com", 0, some 10, 3, none, false⟩], [], [], [], []⟩

/-- `stExpired` with a failing unique-IP sub-query. -/
def stFaulty : RepoState :=
  ⟨[⟨1, "abcd", "http://x.example.com", 0, some 10, 3, none, false⟩], [], [], [],
    [QTag.uniqueIPs]⟩

/-- An access-statistics row to upsert. -/
def statSF : AccessStat := ⟨1, "1.2.3.4", "US", "CA", "SF", 0, 0⟩

/-- A store already holding one row for `statSF`'s key, with count 1. -/
def stWithStat : RepoState :=
  ⟨[], [⟨1, "1.2.3.4", "US", "CA", "SF", 0, 1⟩], [], [], []⟩

/-- A store in which the code `aaaaaa` (the candidate `drawZero` always
produces) already exists. -/
def stTaken : RepoState :=
  ⟨[⟨1, "aaaaaa", "http://g.example.com", 0, none, 0, none, false⟩], [], [], [], []⟩

/-- A store with one live row with code `abcd`, for the delete-then-recreate
scenario. -/
def stLive : RepoState :=
  ⟨[⟨1, "abcd", "http://x.example.com", 0, none, 0, none, false⟩], [], [], [], []⟩

/-! ## Helper lemmas -/

theorem find?_append_of_falsy {α : Type} {p : α → Bool} {l₁ l₂ : List α}
    (h : ∀ x ∈ l₁, p x = false) : (l₁ ++ l₂).find? p = l₂.find? p := by
  induction l₁ with
  | nil => rfl
  | cons a l ih =>
    have ha := h a (by simp)
    simp only [List.cons_append, List.find?_cons, ha]
    exact ih (fun x hx => h x (by simp [hx]))

theorem cacheGet_of_no_entry {cache : List (String × CacheEntry)} {key : String}
    {now : Nat} (h : cache.find? (fun e => e.1 == key) = none) :
    cacheGet cache key now = none := by
  unfold cacheGet
  rw [h]

/-- Inversion of a successful durable insert. -/
theorem repoCreate_eq_ok {st : RepoState} {r : ShortCodeRec} {st2 : RepoState}
    (h : repoCreate st r = .ok st2) :
    st2 = { st with codes := st.codes ++ [r] } ∧ ∀ q ∈ st.codes, q.code ≠ r.code := by
  unfold repoCreate at h
  split at h
  next => simp at h
  next hany =>
    rw [Bool.not_eq_true] at hany
    rw [Except.ok.injEq] at h
    refine ⟨h.symm, fun q hq => ?_⟩
    simpa using List.any_eq_false.mp hany q hq

/-- Shape of a successful durable write at the end of `CreateShortCode`. -/
theorem finishCreate_ok_shape {baseURL : String} {st : RepoState} {req : CreateReq}
    {code : String} {now : Nat} {ops : List StorageOp} {resp : CreateResp}
    {st' : RepoState} {ops' : List StorageOp}
    (h : finishCreate baseURL st req code now ops = (.ok resp, st', ops')) :
    resp.shortCode = code ∧ resp.originalURL = req.url ∧
    resp.expiresAt =
      (if req.expiresIn > 0 then some (now + req.expiresIn.toNat * nsPerHour) else none) ∧
    st'.codes = st.codes ++ [⟨nextId st, code, req.url, now, resp.expiresAt, 0, none, false⟩] ∧
    st'.accessStats = st.accessStats ∧ st'.clickLogs = st.clickLogs ∧
    st'.cache = st.cache ∧ st'.faults = st.faults ∧
    (∀ r ∈ st.codes, r.code ≠ code) := by
  simp only [finishCreate] at h
  cases hrc : repoCreate st ⟨nextId st, code, req.url, now,
      (if req.expiresIn > 0 then some (now + req.expiresIn.toNat * nsPerHour) else none),
      0, none, false⟩ with
  | error e => rw [hrc] at h; simp at h
  | ok st2 =>
    rw [hrc] at h
    rw [Prod.mk.injEq] at h
    obtain ⟨h1, h23⟩ := h
    rw [Prod.mk.injEq] at h23
    obtain ⟨h2, _⟩ := h23
    rw [Except.ok.injEq] at h1
    subst h1
    subst h2
    obtain ⟨hshape, huniq⟩ := repoCreate_eq_ok hrc
    subst hshape
    exact ⟨rfl, rfl, rfl, rfl, rfl, rfl, rfl, rfl, huniq⟩

/-- Shape of any successful `CreateShortCode`: the new row is appended to the
durable store, no prior row carried the returned code, and the cache is left
untouched. -/
theorem createShortCode_ok_shape {baseURL : String} {st : RepoState}
    {req : CreateReq} {now : Nat} {draw : Nat → Fin 62} {resp : CreateResp}
    {st' : RepoState} {ops : List StorageOp}
    (h : createShortCode baseURL st req now draw = (.ok resp, st', ops)) :
    resp.originalURL = req.url ∧
    resp.expiresAt =
      (if req.expiresIn > 0 then some (now + req.expiresIn.toNat * nsPerHour) else none) ∧
    st'.codes =
      st.codes ++ [⟨nextId st, resp.shortCode, req.url, now, resp.expiresAt, 0, none, false⟩] ∧
    st'.cache = st.cache ∧
    (∀ r ∈ st.codes, r.code ≠ resp.shortCode) := by
  unfold createShortCode at h
  by_cases hurl : isValidURL req.url
  · rw [if_neg (by simp [hurl])] at h
    by_cases hcc : req.customCode == ""
    · rw [if_neg (by simp [hcc])] at h
      rcases hg : generateUniqueCode st draw with ⟨gres, gops⟩
      rw [hg] at h
      cases gres with
      | error e => simp at h
      | ok c =>
        obtain ⟨h1, h2, h3, h4, h5, h6, h7, h8, h9⟩ := finishCreate_ok_shape h
        subst h1
        exact ⟨h2, h3, h4, h7, h9⟩
    · rw [if_pos (by simp [hcc])] at h
      by_cases hvc : isValidCode req.customCode
      · rw [if_neg (by simp [hvc])] at h
        by_cases hex : repoCodeExists st req.customCode
        · rw [if_pos hex] at h
          simp at h
        · rw [if_neg hex] at h
          obtain ⟨h1, h2, h3, h4, h5, h6, h7, h8, h9⟩ := finishCreate_ok_shape h
          rw [h1]
          exact ⟨h2, h3, h4, h7, h9⟩
      · rw [if_pos (by simp [hvc])] at h
        simp at h
  · rw [if_pos (by simp [hurl])] at h
    simp at h

/-- C1 (amended): after a successful `CreateShortCode` with a configured
expiration, and provided the cache holds no entry for the returned code,
`GetOriginalURL` returns the original URL strictly before the expiration
instant and fails with NotFound from the expiration instant on.  (Without the
cache proviso the post-expiry half is false: a pre-expiry read populates the
cache for 24 hours and a later cache hit skips the expiry check, see the
counterexample.) -/
theorem c1_round_trip_with_expiration {baseURL : String} {st : RepoState}
    {req : CreateReq} {t0 : Nat} {draw : Nat → Fin 62} {resp : CreateResp}
    {st' : RepoState} {ops : List StorageOp}
    (hcr : createShortCode baseURL st req t0 draw = (.ok resp, st', ops))
    (hexp : req.expiresIn > 0)
    (hnc : st.cache.find? (fun e => e.1 == resp.shortCode) = none) :
    (∀ t1, t1 < t0 + req.expiresIn.toNat * nsPerHour →
      (getOriginalURL st' resp.shortCode t1).1 = .ok req.url) ∧
    (∀ t2, t0 + req.expiresIn.toNat * nsPerHour ≤ t2 →
      (getOriginalURL st' resp.shortCode t2).1 = .error .codeNotFound) := by
  obtain ⟨hourl, hexpAt, hcodes, hcache, hfresh⟩ := createShortCode_ok_shape hcr
  rw [if_pos hexp] at hexpAt
  have hcg : ∀ t, cacheGet st'.cache resp.shortCode t = none := by
    intro t
    rw [hcache]
    exact cacheGet_of_no_entry hnc
  have hfiltered : ∀ t, st'.codes.find?
      (fun r => r.code == resp.shortCode && !r.deleted && expiryLive r.expiresAt t) =
      ([(⟨nextId st, resp.shortCode, req.url, t0, resp.expiresAt, 0, none,
        false⟩ : ShortCodeRec)].find?
        (fun r => r.code == resp.shortCode && !r.deleted && expiryLive r.expiresAt t)) := by
    intro t
    rw [hcodes]
    exact find?_append_of_falsy (fun r hr => by simp [hfresh r hr])
  constructor
  · intro t1 ht1
    have hlive : expiryLive resp.expiresAt t1 = true := by
      rw [hexpAt]
      simpa [expiryLive] using ht1
    simp only [getOriginalURL, repoGetByCode, hcg, hfiltered, List.find?, hlive,
      beq_self_eq_true, Bool.not_false, Bool.and_true, Bool.true_and, Bool.and_self]
  · intro t2 ht2
    have hdead : expiryLive resp.expiresAt t2 = false := by
      rw [hexpAt]
      simpa [expiryLive] using ht2
    simp only [getOriginalURL, repoGetByCode, hcg, hfiltered, List.find?, hdead,
      beq_self_eq_true, Bool.not_false, Bool.and_true, Bool.true_and, Bool.and_false]

/-- C1 counterexample: create `abcd` with a one-hour expiration at time 0,
read it once at time 100 (the read populates the cache for 24 hours), then
read again at time 2h — one hour past the expiration.  The second read still
returns the original URL instead of failing with NotFound, because the cache
hit path never checks expiry. -/
theorem c1_counterexample :
    createShortCode "b" emptySt reqAbcd 0 drawZero =
      (.ok respAbcd, stAbcd, [.existsCheck "abcd", .createWrite "abcd"]) ∧
    respAbcd.expiresAt = some nsPerHour ∧
    (getOriginalURL stAbcd "abcd" 100).1 = .ok "http://example.com" ∧
    nsPerHour ≤ 2 * nsPerHour ∧
    (getOriginalURL (getOriginalURL stAbcd "abcd" 100).2 "abcd" (2 * nsPerHour)).1 =
      .ok "http://example.com" := by
  decide

/-- C1 witness: the amended round-trip theorem applied to the concrete
creation of `abcd` (one-hour expiration, no interleaved read). -/
theorem c1_witness :
    (getOriginalURL stAbcd "abcd" 100).1 = .ok "http://example.com" ∧
    (getOriginalURL stAbcd "abcd" (2 * nsPerHour)).1 = .error .codeNotFound := by
  have h := @c1_round_trip_with_expiration "b" emptySt reqAbcd 0 drawZero respAbcd
    stAbcd [.existsCheck "abcd", .createWrite "abcd"] (by decide) (by decide) (by decide)
  exact ⟨h.1 100 (by decide), h.2 (2 * nsPerHour) (by decide)⟩

/-- C2: a creation whose durable write violates the uniqueness constraint on
`code` — here the custom code `abcd` collides with a soft-deleted row that is
still present in the unique index, so the existence check passes and the
write fails — is surfaced as the generic wrapped storage error (HTTP 500),
not as `CodeAlreadyExists` (HTTP 409) as the specification requires. -/
theorem c2_unique_violation_generic_error :
    repoCodeExists stSoftDeleted "abcd" = false ∧
    stSoftDeleted.codes.any (fun r => r.code == "abcd") = true ∧
    (createShortCode "b" stSoftDeleted reqAbcd 0 drawZero).1 = .error .storageError ∧
    (createShortCode "b" stSoftDeleted reqAbcd 0 drawZero).1 ≠ .error .codeExists ∧
    handlerCreateStatus .storageError = 500 ∧
    handlerCreateStatus .codeExists = 409 := by
  decide

/-- C3 counterexample: the only row of `stExpired` expired at time 10, yet at
time 20 `GetStats` and `GetDetailedStats` still return it (only
`GetOriginalURL` treats it as absent). -/
theorem c3_counterexample :
    stExpired.codes.map (fun r => r.expiresAt) = [some 10] ∧
    (svcGetStats stExpired "abcd").1 = .ok ⟨"abcd", "http://x.example.com", 3, 0, none⟩ ∧
    (svcGetDetailedStats stExpired "abcd" 0 20).1 =
      .ok ⟨"abcd", "http://x.example.com", 3, 0, 0, none, [], [], []⟩ ∧
    (getOriginalURL stExpired "abcd" 20).1 = .error .codeNotFound := by
  decide

/-- C3 (amended): a record with a past expiration timestamp is treated as
absent by `GetOriginalURL` (when the cache holds no entry for it), but
`GetStats` and `GetDetailedStats` still return it: their base queries filter
only on the code and the soft-delete scope, not on expiry. -/
theorem c3_expired_reads (st : RepoState) (code : String) (now : Nat)
    (r : ShortCodeRec) (e : Nat)
    (hfind : st.codes.find? (fun q => q.code == code && !q.deleted) = some r)
    (huniq : ∀ q ∈ st.codes, q.code = code → q = r)
    (hexp : r.expiresAt = some e) (hle : e ≤ now)
    (hnc : st.cache.find? (fun en => en.1 == code) = none)
    (hnf : st.faults = []) :
    (getOriginalURL st code now).1 = .error .codeNotFound ∧
    (svcGetStats st code).1 =
      .ok ⟨r.code, r.originalURL, r.clickCount, r.createdAt, r.lastAccessedAt⟩ ∧
    ∃ ds : DetailedStats, (svcGetDetailedStats st code 0 now).1 = .ok ds ∧
      ds.code = r.code ∧ ds.originalURL = r.originalURL := by
  refine ⟨?_, ?_, ?_⟩
  · have hcg : cacheGet st.cache code now = none := cacheGet_of_no_entry hnc
    have hdb : st.codes.find?
        (fun q => q.code == code && !q.deleted && expiryLive q.expiresAt now) = none := by
      rw [List.find?_eq_none]
      intro q hq
      by_cases hqc : q.code = code
      · have hqr : q = r := huniq q hq hqc
        subst hqr
        simp [hexp, expiryLive, Nat.not_lt.mpr hle]
      · simp [hqc]
    simp only [getOriginalURL, repoGetByCode, hcg, hdb]
  · simp only [svcGetStats, repoGetStats, hfind]
  · simp only [svcGetDetailedStats, repoGetDetailedStats, hnf, List.contains,
      List.elem_nil, hfind]
    exact ⟨_, rfl, rfl, rfl⟩

/-- C3 witness: the amended theorem applied to the concrete expired store. -/
theorem c3_witness :
    (getOriginalURL stExpired "abcd" 20).1 = .error .codeNotFound ∧
    (svcGetStats stExpired "abcd").1 = .ok ⟨"abcd", "http://x.example.com", 3, 0, none⟩ ∧
    ∃ ds : DetailedStats, (svcGetDetailedStats stExpired "abcd" 0 20).1 = .ok ds ∧
      ds.code = "abcd" ∧ ds.originalURL = "http://x.example.com" :=
  c3_expired_reads stExpired "abcd" 20
    ⟨1, "abcd", "http://x.example.com", 0, some 10, 3, none, false⟩ 10
    (by decide) (by decide) (by decide) (by decide) (by decide) (by decide)

/-- Updating the access count leaves the upsert key untouched. -/
theorem statKeyMatch_bump (s r : AccessStat) (c : Int) :
    statKeyMatch s { r with accessCount := c } = statKeyMatch s r := rfl

/-- `statKeyMatch` is equality of the composite keys. -/
theorem statKeyMatch_eq_key (s r : AccessStat) :
    statKeyMatch s r = (statKey r == statKey s) := by
  apply Bool.eq_iff_iff.mpr
  simp [statKeyMatch, statKey, Prod.ext_iff, and_assoc]

theorem filter_singleton_find? {α : Type} {p : α → Bool} {l : List α} {r : α}
    (h : l.filter p = [r]) : l.find? p = some r := by
  induction l with
  | nil => simp at h
  | cons x xs ih =>
    by_cases hx : p x
    · rw [List.filter_cons_of_pos hx] at h
      rw [List.cons.injEq] at h
      rw [List.find?_cons_of_pos _ hx, h.1]
    · rw [List.filter_cons_of_neg hx] at h
      rw [List.find?_cons_of_neg _ hx]
      exact ih h

theorem bumpFirstStat_length (s : AccessStat) (l : List AccessStat) :
    (bumpFirstStat s l).length = l.length := by
  induction l with
  | nil => rfl
  | cons x xs ih =>
    unfold bumpFirstStat
    by_cases hx : statKeyMatch s x
    · rw [if_pos hx]
      rfl
    · rw [if_neg hx]
      simpa using ih

theorem bumpFirstStat_filter (s : AccessStat) (l : List AccessStat) (r : AccessStat)
    (h : l.filter (statKeyMatch s) = [r]) :
    (bumpFirstStat s l).filter (statKeyMatch s) =
      [{ r with accessCount := r.accessCount + 1 }] := by
  induction l with
  | nil => simp at h
  | cons x xs ih =>
    unfold bumpFirstStat
    by_cases hx : statKeyMatch s x
    · rw [List.filter_cons_of_pos hx] at h
      rw [List.cons.injEq] at h
      obtain ⟨hxr, hrest⟩ := h
      subst hxr
      rw [if_pos hx]
      rw [List.filter_cons_of_pos (by rw [statKeyMatch_bump]; exact hx), hrest]
    · rw [List.filter_cons_of_neg hx] at h
      rw [if_neg hx]
      rw [List.filter_cons_of_neg hx]
      exact ih h

theorem bumpFirstStat_countP_key (s : AccessStat) (l : List AccessStat)
    (k : Nat × String × Nat) :
    (bumpFirstStat s l).countP (fun a => statKey a == k) =
      l.countP (fun a => statKey a == k) := by
  induction l with
  | nil => rfl
  | cons x xs ih =>
    unfold bumpFirstStat
    by_cases hx : statKeyMatch s x
    · rw [if_pos hx]
      rw [List.countP_cons, List.countP_cons]
      have : statKey { x with accessCount := x.accessCount + 1 } = statKey x := rfl
      rw [this]
    · rw [if_neg hx]
      rw [List.countP_cons, List.countP_cons, ih]

/-- C4: `RecordAccessStats` is a sequential upsert keyed by
`(shortCodeId, ipAddress, hourBucket)`: with no row for the key it appends a
row with count 1; with exactly one row for the key it increments that row's
count by one and creates no row; and it preserves the at-most-one-row-per-key
invariant. -/
theorem c4_record_access_stats_upsert (st : RepoState) (s : AccessStat) :
    (st.accessStats.find? (statKeyMatch s) = none →
      (repoRecordAccessStats st s).accessStats =
        st.accessStats ++ [{ s with accessCount := 1 }]) ∧
    (∀ r, st.accessStats.filter (statKeyMatch s) = [r] →
      (repoRecordAccessStats st s).accessStats.length = st.accessStats.length ∧
      (repoRecordAccessStats st s).accessStats.filter (statKeyMatch s) =
        [{ r with accessCount := r.accessCount + 1 }]) ∧
    (∀ k : Nat × String × Nat,
      st.accessStats.countP (fun a => statKey a == k) ≤ 1 →
      (repoRecordAccessStats st s).accessStats.countP (fun a => statKey a == k) ≤ 1) := by
  refine ⟨?_, ?_, ?_⟩
  · intro hnone
    unfold repoRecordAccessStats
    rw [hnone]
  · intro r hr
    unfold repoRecordAccessStats
    rw [filter_singleton_find? hr]
    exact ⟨bumpFirstStat_length s _, bumpFirstStat_filter s _ r hr⟩
  · intro k hk
    unfold repoRecordAccessStats
    cases hf : st.accessStats.find? (statKeyMatch s) with
    | some r =>
      simpa [bumpFirstStat_countP_key] using hk
    | none =>
      have hzero : ∀ q ∈ st.accessStats, statKeyMatch s q = false := by
        intro q hq
        simpa using List.find?_eq_none.mp hf q hq
      simp only [List.countP_append]
      by_cases hks : (statKey { s with accessCount := 1 } == k) = true
      · have hcnt : st.accessStats.countP (fun a => statKey a == k) = 0 := by
          rw [List.countP_eq_zero]
          intro q hq
          have hq0 := hzero q hq
          rw [statKeyMatch_eq_key] at hq0
          have hkk : statKey s = k := by
            have : statKey { s with accessCount := 1 } = statKey s := rfl
            rw [this] at hks
            exact beq_iff_eq.mp hks
          rw [← hkk]
          have : statKey { s with accessCount := (1 : Int) } = statKey s := rfl
          simpa using hq0
        rw [hcnt]
        simp [hks, List.countP_cons]
      · simp only [List.countP_cons, List.countP_nil]
        rw [Bool.not_eq_true] at hks
        simp [hks]
        exact hk

/-- C4 witness: inserting into an empty store yields one row with count 1;
upserting against a store already holding the key's row with count 1 yields
the same single row with count 2. -/
theorem c4_witness :
    (repoRecordAccessStats emptySt statSF).accessStats =
      emptySt.accessStats ++ [{ statSF with accessCount := 1 }] ∧
    (repoRecordAccessStats stWithStat statSF).accessStats.length =
      stWithStat.accessStats.length ∧
    (repoRecordAccessStats stWithStat statSF).accessStats.filter (statKeyMatch statSF) =
      [⟨1, "1.2.3.4", "US", "CA", "SF", 0, 2⟩] := by
  have h1 := (c4_record_access_stats_upsert emptySt statSF).1 (by decide)
  have h2 := (c4_record_access_stats_upsert stWithStat statSF).2.1
    ⟨1, "1.2.3.4", "US", "CA", "SF", 0, 1⟩ (by decide)
  refine ⟨h1, h2.1, ?_⟩
  rw [h2.2]
  decide

/-- Looking up the client just written. -/
theorem rlLookup_rlSet (s : RLState) (ip : String) (v : Visitor) :
    rlLookup (rlSet s ip v) ip = some v := by
  unfold rlLookup rlSet
  rw [List.find?_cons_of_pos _ (by simp)]

/-- Reduction of `rlAllow` when the client has an entry. -/
theorem rlAllow_some (cfg : RLCfg) (s : RLState) (ip : String) (t : Nat)
    (v : Visitor) (hv : rlLookup s ip = some v) :
    rlAllow cfg s ip t =
      if t > v.resetTime then (true, rlSet s ip ⟨1, t + cfg.window⟩)
      else if v.requests < cfg.rate then
        (true, rlSet s ip ⟨v.requests + 1, v.resetTime⟩)
      else (false, s) := by
  unfold rlAllow
  rw [hv]

/-- A call from a client with no entry or an elapsed window starts a fresh
window with count 1 and is admitted. -/
theorem rlAllow_fresh (cfg : RLCfg) (s : RLState) (ip : String) (t : Nat)
    (h : rlLookup s ip = none ∨ ∃ v, rlLookup s ip = some v ∧ t > v.resetTime) :
    rlAllow cfg s ip t = (true, rlSet s ip ⟨1, t + cfg.window⟩) := by
  rcases h with h | ⟨v, hv, hvt⟩
  · unfold rlAllow
    rw [h]
  · rw [rlAllow_some cfg s ip t v hv]
    rw [if_pos hvt]

/-- A trace splits across an append of call lists. -/
theorem rlAllowTrace_append (cfg : RLCfg) (ip : String) (a b : List Nat) :
    ∀ s : RLState, rlAllowTrace cfg s ip (a ++ b) =
      ((rlAllowTrace cfg s ip a).1 ++
        (rlAllowTrace cfg (rlAllowTrace cfg s ip a).2 ip b).1,
       (rlAllowTrace cfg (rlAllowTrace cfg s ip a).2 ip b).2) := by
  induction a with
  | nil => intro s; rfl
  | cons t ts ih =>
    intro s
    simp only [List.cons_append, rlAllowTrace, List.append_eq]
    rw [ih]

/-- Running the limiter on calls that all fall within the current window:
while the count stays at or below `rate`, every call is admitted and the
count grows by one per call. -/
theorem rlAllowTrace_within (cfg : RLCfg) (ip : String) (reset : Nat) :
    ∀ (ts : List Nat) (s : RLState) (k : Nat),
      rlLookup s ip = some ⟨k, reset⟩ →
      (∀ t ∈ ts, t ≤ reset) →
      k + ts.length ≤ cfg.rate →
      (rlAllowTrace cfg s ip ts).1 = List.replicate ts.length true ∧
      rlLookup (rlAllowTrace cfg s ip ts).2 ip = some ⟨k + ts.length, reset⟩ := by
  intro ts
  induction ts with
  | nil =>
    intro s k hs _ _
    exact ⟨rfl, by simpa using hs⟩
  | cons t ts ih =>
    intro s k hs hts hk
    have hnotafter : ¬ t > reset := by
      have := hts t (by simp)
      omega
    have hlt : k < cfg.rate := by
      simp only [List.length_cons] at hk
      omega
    have hstep : rlAllow cfg s ip t = (true, rlSet s ip ⟨k + 1, reset⟩) := by
      rw [rlAllow_some cfg s ip t ⟨k, reset⟩ hs]
      rw [if_neg hnotafter]
      rw [if_pos hlt]
    have hrec := ih (rlSet s ip ⟨k + 1, reset⟩) (k + 1) (rlLookup_rlSet _ _ _)
      (fun u hu => hts u (by simp [hu]))
      (by simp only [List.length_cons] at hk; omega)
    simp only [rlAllowTrace]
    rw [hstep]
    refine ⟨?_, ?_⟩
    · simp only [List.length_cons, List.replicate_succ]
      rw [hrec.1]
    · rw [hrec.2]
      have : k + 1 + ts.length = k + (t :: ts).length := by
        simp only [List.length_cons]
        omega
      rw [this]

/-- C5: fixed-window rate limiting.  Starting from a state with no entry (or
an elapsed window) for the client, the first `rate` calls within the window
started by the first call are all admitted and the next call within that
window is rejected; and (second conjunct) any call made strictly after a
client's window has elapsed is admitted and starts a fresh window with
count 1. -/
theorem c5_rate_limiter_window (cfg : RLCfg) (s0 : RLState) (ip : String)
    (t0 : Nat) (ts : List Nat) (tlast : Nat)
    (hR : 1 ≤ cfg.rate)
    (hfresh : rlLookup s0 ip = none ∨ ∃ v, rlLookup s0 ip = some v ∧ t0 > v.resetTime)
    (hlen : ts.length = cfg.rate - 1)
    (hts : ∀ t ∈ ts, t ≤ t0 + cfg.window)
    (hlast : tlast ≤ t0 + cfg.window) :
    (rlAllowTrace cfg s0 ip (t0 :: ts ++ [tlast])).1 =
      List.replicate cfg.rate true ++ [false] ∧
    (∀ s v u, rlLookup s ip = some v → u > v.resetTime →
      rlAllow cfg s ip u = (true, rlSet s ip ⟨1, u + cfg.window⟩)) := by
  constructor
  · simp only [rlAllowTrace, List.append_eq]
    rw [rlAllow_fresh cfg s0 ip t0 hfresh]
    have hmid := rlAllowTrace_within cfg ip (t0 + cfg.window) ts
      (rlSet s0 ip ⟨1, t0 + cfg.window⟩) 1 (rlLookup_rlSet _ _ _) hts
      (by omega)
    rw [rlAllowTrace_append]
    rw [hmid.1]
    have hlastcall : (rlAllowTrace cfg (rlAllowTrace cfg
        (rlSet s0 ip ⟨1, t0 + cfg.window⟩) ip ts).2 ip [tlast]).1 = [false] := by
      simp only [rlAllowTrace]
      have hstep : rlAllow cfg (rlAllowTrace cfg
          (rlSet s0 ip ⟨1, t0 + cfg.window⟩) ip ts).2 ip tlast =
          (false, (rlAllowTrace cfg (rlSet s0 ip ⟨1, t0 + cfg.window⟩) ip ts).2) := by
        rw [rlAllow_some _ _ _ _ _ hmid.2]
        rw [if_neg (show ¬(tlast > t0 + cfg.window) by omega)]
        rw [if_neg (show ¬(1 + ts.length < cfg.rate) by omega)]
      rw [hstep]
    rw [hlastcall]
    have hrate : cfg.rate = (cfg.rate - 1) + 1 := by omega
    rw [hrate, List.replicate_succ, hlen]
    simp
  · intro s v u hv hu
    exact rlAllow_fresh cfg s ip u (Or.inr ⟨v, hv, hu⟩)

/-- C5 witness: rate 2, window 10, calls at times 0, 3, 5 give
admit, admit, reject; a later call at time 11 against a full window that
resets at 10 is admitted with a fresh count of 1. -/
theorem c5_witness :
    (rlAllowTrace ⟨2, 10⟩ ([] : RLState) "1.2.3.4" (0 :: [3] ++ [5])).1 =
      List.replicate 2 true ++ [false] ∧
    rlAllow ⟨2, 10⟩ [("1.2.3.4", ⟨2, 10⟩)] "1.2.3.4" 11 =
      (true, rlSet [("1.2.3.4", ⟨2, 10⟩)] "1.2.3.4" ⟨1, 11 + 10⟩) := by
  have h := c5_rate_limiter_window ⟨2, 10⟩ ([] : RLState) "1.2.3.4" 0 [3] 5
    (by decide) (Or.inl (by decide)) (by decide) (by decide) (by decide)
  exact ⟨h.1, h.2 [("1.2.3.4", ⟨2, 10⟩)] ⟨2, 10⟩ 11 (by decide) (by decide)⟩

theorem charsetChars_length : charsetChars.length = 62 := by decide

theorem charsetChars_alphanum : ∀ c ∈ charsetChars, c.isAlphanum = true := by decide

theorem generateRandomCode_toList (draw : Nat → Fin 62) (n : Nat) :
    (generateRandomCode draw n).toList =
      (List.range n).map (fun i => charsetChars.getD (draw i).val 'a') := rfl

/-- A generated code has exactly the requested length. -/
theorem generateRandomCode_length (draw : Nat → Fin 62) (n : Nat) :
    (generateRandomCode draw n).toList.length = n := by
  rw [generateRandomCode_toList, List.length_map, List.length_range]

/-- Every character of a generated code is alphanumeric. -/
theorem generateRandomCode_alphanum (draw : Nat → Fin 62) (n : Nat) :
    (generateRandomCode draw n).toList.all Char.isAlphanum = true := by
  rw [generateRandomCode_toList, List.all_eq_true]
  intro c hc
  rw [List.mem_map] at hc
  obtain ⟨i, _, rfl⟩ := hc
  apply charsetChars_alphanum
  have hb : (draw i).val < charsetChars.length := by
    rw [charsetChars_length]
    exact (draw i).isLt
  rw [List.getD_eq_getElem charsetChars 'a' hb]
  exact List.getElem_mem hb

/-- A successful run of the generation loop returns one of the candidates it
drew, for which the existence check returned false. -/
theorem generateUniqueCodeAux_ok (st : RepoState) (draw : Nat → Fin 62) :
    ∀ (fuel i : Nat) (code : String) (ops : List StorageOp),
      generateUniqueCodeAux st draw i fuel = (.ok code, ops) →
      ∃ j, i ≤ j ∧ j < i + fuel ∧ code = candidateCode draw j ∧
        repoCodeExists st code = false := by
  intro fuel
  induction fuel with
  | zero =>
    intro i code ops h
    simp [generateUniqueCodeAux] at h
  | succ n ih =>
    intro i code ops h
    simp only [generateUniqueCodeAux] at h
    by_cases hex : repoCodeExists st (candidateCode draw i)
    · rw [if_pos hex] at h
      rcases hr : generateUniqueCodeAux st draw (i + 1) n with ⟨res, rops⟩
      rw [hr] at h
      rw [Prod.mk.injEq] at h
      have hres : res = .ok code := h.1
      have hr' : generateUniqueCodeAux st draw (i + 1) n = (.ok code, rops) := by
        rw [hr, hres]
      obtain ⟨j, hij, hjn, hc, hne⟩ := ih (i + 1) code rops hr'
      exact ⟨j, by omega, by omega, hc, hne⟩
    · rw [if_neg hex] at h
      rw [Prod.mk.injEq] at h
      rw [Except.ok.injEq] at h
      obtain ⟨hc, _⟩ := h
      subst hc
      exact ⟨i, Nat.le_refl i, by omega, rfl, by simpa using hex⟩

/-- When every drawn candidate already exists, the generation loop exhausts
its attempts and fails. -/
theorem generateUniqueCodeAux_exhaust (st : RepoState) (draw : Nat → Fin 62) :
    ∀ (fuel i : Nat),
      (∀ j, i ≤ j → j < i + fuel → repoCodeExists st (candidateCode draw j) = true) →
      (generateUniqueCodeAux st draw i fuel).1 = .error () := by
  intro fuel
  induction fuel with
  | zero => intro i _; rfl
  | succ n ih =>
    intro i hall
    simp only [generateUniqueCodeAux]
    rw [if_pos (hall i (Nat.le_refl i) (by omega))]
    exact ih (i + 1) (fun j hj hjn => hall j (by omega) (by omega))

/-- C6: with no custom code and a valid URL, a successful `CreateShortCode`
returns one of at most 5 drawn candidates — a 6-character alphanumeric code
for which the existence check returned false — and when all 5 candidates
already exist, creation fails with the generation-exhausted error. -/
theorem c6_auto_generation (baseURL : String) (st : RepoState) (req : CreateReq)
    (now : Nat) (draw : Nat → Fin 62)
    (hcc : req.customCode = "") (hurl : isValidURL req.url = true) :
    (∀ resp st' ops, createShortCode baseURL st req now draw = (.ok resp, st', ops) →
      resp.shortCode.toList.length = 6 ∧
      resp.shortCode.toList.all Char.isAlphanum = true ∧
      repoCodeExists st resp.shortCode = false ∧
      ∃ j, j < maxRetries ∧ resp.shortCode = candidateCode draw j) ∧
    ((∀ j, j < maxRetries → repoCodeExists st (candidateCode draw j) = true) →
      (createShortCode baseURL st req now draw).1 = .error .generationExhausted) := by
  constructor
  · intro resp st' ops h
    unfold createShortCode at h
    rw [if_neg (by simp [hurl])] at h
    rw [if_neg (by simp [hcc])] at h
    rcases hg : generateUniqueCode st draw with ⟨res, gops⟩
    rw [hg] at h
    cases res with
    | error e => simp at h
    | ok c =>
      obtain ⟨h1, _, _, _, _, _, _, _, _⟩ := finishCreate_ok_shape h
      unfold generateUniqueCode at hg
      obtain ⟨j, _, hjn, hc, hne⟩ :=
        generateUniqueCodeAux_ok st draw maxRetries 0 c gops hg
      subst h1
      rw [hc]
      refine ⟨?_, ?_, ?_, j, by omega, rfl⟩
      · exact generateRandomCode_length _ _
      · exact generateRandomCode_alphanum _ _
      · rw [← hc]
        exact hne
  · intro hall
    have hex : (generateUniqueCode st draw).1 = .error () := by
      unfold generateUniqueCode
      exact generateUniqueCodeAux_exhaust st draw maxRetries 0
        (fun j hj0 hjm => hall j (by omega))
    unfold createShortCode
    rw [if_neg (by simp [hurl])]
    rw [if_neg (by simp [hcc])]
    rcases hg : generateUniqueCode st draw with ⟨res, gops⟩
    rw [hg] at hex
    cases res with
    | error e => rfl
    | ok c => simp at hex

/-- C6 witness: against the empty store the constant-zero oracle generates
`aaaaaa` (6 alphanumeric characters, not previously existing); against a
store already holding `aaaaaa` all five candidates exist and creation fails
with the generation-exhausted error. -/
theorem c6_witness :
    (("aaaaaa" : String).toList.length = 6 ∧
      ("aaaaaa" : String).toList.all Char.isAlphanum = true ∧
      repoCodeExists emptySt "aaaaaa" = false ∧
      ∃ j, j < maxRetries ∧ ("aaaaaa" : String) = candidateCode drawZero j) ∧
    (createShortCode "b" stTaken ⟨"http://example.com", "", 0⟩ 0 drawZero).1 =
      .error .generationExhausted := by
  have h := c6_auto_generation "b" emptySt ⟨"http://example.com", "", 0⟩ 0 drawZero
    rfl (by decide)
  have h1 := h.1 ⟨"aaaaaa", "b/aaaaaa", "http://example.com", 0, none⟩
    ⟨[⟨1, "aaaaaa", "http://example.com", 0, none, 0, none, false⟩], [], [], [], []⟩
    [.existsCheck "aaaaaa", .createWrite "aaaaaa"] (by decide)
  have h2 := (c6_auto_generation "b" stTaken ⟨"http://example.com", "", 0⟩ 0 drawZero
    rfl (by decide)).2 (by decide)
  exact ⟨h1, h2⟩

/-- C7 counterexample: with the base row present but the unique-IP sub-query
failing, the repository returns the query fault, but the service maps it to
`ErrCodeNotFound` — exactly what it returns when the record does not exist at
all — so the caller cannot distinguish a sub-query storage failure from
NotFound. -/
theorem c7_counterexample :
    (repoGetDetailedStats stFaulty "abcd" 0 20).1 = .error (.queryFault .uniqueIPs) ∧
    (svcGetDetailedStats stFaulty "abcd" 0 20).1 = .error .codeNotFound ∧
    (svcGetDetailedStats emptySt "abcd" 0 20).1 = .error .codeNotFound := by
  decide

/-- C7 (amended): at the repository layer the contract holds — an
unresolvable base record yields NotFound and a failing sub-query propagates
its distinct storage error — but the service layer maps every repository
error, storage failures included, to `ErrCodeNotFound`, so the two are
indistinguishable to the operation's caller. -/
theorem c7_detailed_stats_error_contract (st : RepoState) (code : String)
    (hours : Int) (now : Nat)
    (hb : st.faults.contains QTag.base = false) :
    (st.codes.find? (fun r => r.code == code && !r.deleted) = none →
      (repoGetDetailedStats st code hours now).1 = .error .notFound) ∧
    (∀ sc, st.codes.find? (fun r => r.code == code && !r.deleted) = some sc →
      st.faults.contains QTag.uniqueIPs = true →
      (repoGetDetailedStats st code hours now).1 = .error (.queryFault .uniqueIPs)) ∧
    (∀ sc, st.codes.find? (fun r => r.code == code && !r.deleted) = some sc →
      st.faults.contains QTag.uniqueIPs = false →
      st.faults.contains QTag.hourly = true →
      (repoGetDetailedStats st code hours now).1 = .error (.queryFault .hourly)) ∧
    (∀ sc, st.codes.find? (fun r => r.code == code && !r.deleted) = some sc →
      st.faults.contains QTag.uniqueIPs = false →
      st.faults.contains QTag.hourly = false →
      st.faults.contains QTag.location = true →
      (repoGetDetailedStats st code hours now).1 = .error (.queryFault .location)) ∧
    (∀ sc, st.codes.find? (fun r => r.code == code && !r.deleted) = some sc →
      st.faults.contains QTag.uniqueIPs = false →
      st.faults.contains QTag.hourly = false →
      st.faults.contains QTag.location = false →
      st.faults.contains QTag.recent = true →
      (repoGetDetailedStats st code hours now).1 = .error (.queryFault .recent)) ∧
    (∀ t : QTag, RepoErr.queryFault t ≠ RepoErr.notFound) ∧
    (∀ e, (repoGetDetailedStats st code hours now).1 = .error e →
      (svcGetDetailedStats st code hours now).1 = .error .codeNotFound) := by
  refine ⟨?_, ?_, ?_, ?_, ?_, ?_, ?_⟩
  · intro hnone
    simp only [repoGetDetailedStats, hb, hnone]
    rfl
  · intro sc hsc h1
    simp only [repoGetDetailedStats, hb, hsc, h1]
    rfl
  · intro sc hsc h1 h2
    simp only [repoGetDetailedStats, hb, hsc, h1, h2]
    rfl
  · intro sc hsc h1 h2 h3
    simp only [repoGetDetailedStats, hb, hsc, h1, h2, h3]
    rfl
  · intro sc hsc h1 h2 h3 h4
    simp only [repoGetDetailedStats, hb, hsc, h1, h2, h3, h4]
    rfl
  · intro t h
    cases h
  · intro e he
    unfold svcGetDetailedStats
    rcases hr : repoGetDetailedStats st code hours now with ⟨r1, r2⟩
    rw [hr] at he
    have hr1 : r1 = .error e := he
    subst hr1
    rfl

/-- C7 witness: the amended error contract applied to the concrete store with
a failing unique-IP sub-query. -/
theorem c7_witness :
    (repoGetDetailedStats stFaulty "abcd" 0 20).1 = .error (.queryFault .uniqueIPs) ∧
    RepoErr.queryFault .uniqueIPs ≠ RepoErr.notFound ∧
    (svcGetDetailedStats stFaulty "abcd" 0 20).1 = .error .codeNotFound := by
  have h := c7_detailed_stats_error_contract stFaulty "abcd" 0 20 (by decide)
  have hrepo := h.2.1 ⟨1, "abcd", "http://x.example.com", 0, some 10, 3, none, false⟩
    (by decide) (by decide)
  exact ⟨hrepo, h.2.2.2.2.2.1 .uniqueIPs, h.2.2.2.2.2.2 _ hrepo⟩

/-- C8 counterexample: a request whose custom code is invalid and whose URL
is also invalid fails with `InvalidURL`, not `InvalidCodeFormat` — URL
validation runs first, so the claim does not hold for every request with a
malformed custom code. -/
theorem c8_counterexample :
    isValidCode "ab!" = false ∧
    (createShortCode "b" emptySt ⟨"notaurl", "ab!", 0⟩ 0 drawZero).1 = .error .invalidURL ∧
    (createShortCode "b" emptySt ⟨"notaurl", "ab!", 0⟩ 0 drawZero).1 ≠ .error .invalidCode := by
  decide

/-- C8 (amended): for every creation request that passes URL validation and
carries a non-empty custom code not matching `^[A-Za-z0-9]{4,50}$`,
`CreateShortCode` fails with `InvalidCodeFormat`, leaves the store unchanged
and performs no storage operation — neither an existence check nor a
write. -/
theorem c8_invalid_code_rejected (baseURL : String) (st : RepoState)
    (req : CreateReq) (now : Nat) (draw : Nat → Fin 62)
    (hurl : isValidURL req.url = true)
    (hcc : req.customCode ≠ "")
    (hvc : isValidCode req.customCode = false) :
    createShortCode baseURL st req now draw = (.error .invalidCode, st, []) := by
  unfold createShortCode
  rw [if_neg (by simp [hurl])]
  rw [if_pos (by simp [hcc])]
  rw [if_pos (by simp [hvc])]

/-- C8 witness: the amended theorem at a concrete malformed custom code. -/
theorem c8_witness :
    createShortCode "b" emptySt ⟨"http://example.com", "ab!", 0⟩ 0 drawZero =
      (.error .invalidCode, emptySt, []) :=
  c8_invalid_code_rejected "b" emptySt ⟨"http://example.com", "ab!", 0⟩ 0 drawZero
    (by decide) (by decide) (by decide)

/-- `CreateShortCode`'s durable-write tail always logs the write attempt,
whether or not the insert succeeds. -/
theorem finishCreate_ops (baseURL : String) (st : RepoState) (req : CreateReq)
    (code : String) (now : Nat) (ops : List StorageOp) :
    (finishCreate baseURL st req code now ops).2.2 = ops ++ [.createWrite code] := by
  simp only [finishCreate]
  cases hrc : repoCreate st ⟨nextId st, code, req.url, now,
      (if req.expiresIn > 0 then some (now + req.expiresIn.toNat * nsPerHour) else none),
      0, none, false⟩ with
  | error e => rfl
  | ok st2 => rfl

/-- A delete that matches at least one live row succeeds and soft-deletes
every live row with the code. -/
theorem repoDelete_shape (st : RepoState) (code : String)
    (hpos : 0 < st.codes.countP (fun q => q.code == code && !q.deleted)) :
    (repoDelete st code).1 = .ok () ∧
    (repoDelete st code).2.codes = st.codes.map (fun q =>
      if q.code == code && !q.deleted then { q with deleted := true } else q) := by
  simp only [repoDelete]
  rw [if_neg (show ¬((st.codes.countP
      (fun q => q.code == code && !q.deleted) == 0) = true) by
    simpa using Nat.pos_iff_ne_zero.mp hpos)]
  exact ⟨rfl, rfl⟩

/-- C10: after a successful soft delete of code C, `CodeExists(C)` is false
(the check excludes soft-deleted rows) even though the unique index still
contains a row with code C; a subsequent `CreateShortCode` with custom code C
therefore passes the existence check and proceeds to the durable write. -/
theorem c10_delete_then_recreate (baseURL : String) (st : RepoState)
    (code url : String) (expIn : Int) (now : Nat) (draw : Nat → Fin 62)
    (r : ShortCodeRec) (hmem : r ∈ st.codes) (hrc : r.code = code)
    (hrd : r.deleted = false) (hvc : isValidCode code = true)
    (hurl : isValidURL url = true) :
    (repoDelete st code).1 = .ok () ∧
    repoCodeExists (repoDelete st code).2 code = false ∧
    (repoDelete st code).2.codes.any (fun q => q.code == code) = true ∧
    (createShortCode baseURL (repoDelete st code).2 ⟨url, code, expIn⟩ now draw).2.2 =
      [.existsCheck code, .createWrite code] := by
  have hpos : 0 < st.codes.countP (fun q => q.code == code && !q.deleted) :=
    List.countP_pos_iff.mpr ⟨r, hmem, by simp [hrc, hrd]⟩
  obtain ⟨hok, hcodes⟩ := repoDelete_shape st code hpos
  have hcnt : (repoDelete st code).2.codes.countP
      (fun q => q.code == code && !q.deleted) = 0 := by
    rw [hcodes, List.countP_eq_zero]
    intro x hx
    rw [List.mem_map] at hx
    obtain ⟨q, _, rfl⟩ := hx
    by_cases hq : (q.code == code && !q.deleted) = true
    · rw [if_pos hq]
      simp
    · rw [if_neg hq]
      simpa using hq
  have hexists : repoCodeExists (repoDelete st code).2 code = false := by
    unfold repoCodeExists
    rw [hcnt]
    rfl
  have hne : code ≠ "" := by
    intro h
    rw [h] at hvc
    exact absurd hvc (by decide)
  refine ⟨hok, hexists, ?_, ?_⟩
  · rw [hcodes]
    rw [List.any_eq_true]
    refine ⟨if r.code == code && !r.deleted then { r with deleted := true } else r,
      List.mem_map_of_mem _ hmem, ?_⟩
    rw [if_pos (by simp [hrc, hrd])]
    simp [hrc]
  · unfold createShortCode
    rw [if_neg (by simp [hurl])]
    rw [if_pos (by simp [hne])]
    rw [if_neg (by simp [hvc])]
    rw [if_neg (by simp [hexists])]
    rw [finishCreate_ops]
    rfl

/-- C10 witness: deleting the live row `abcd` and recreating the same custom
code against the concrete store. -/
theorem c10_witness :
    (repoDelete stLive "abcd").1 = .ok () ∧
    repoCodeExists (repoDelete stLive "abcd").2 "abcd" = false ∧
    (repoDelete stLive "abcd").2.codes.any (fun q => q.code == "abcd") = true ∧
    (createShortCode "b" (repoDelete stLive "abcd").2
      ⟨"http://example.com", "abcd", 0⟩ 0 drawZero).2.2 =
      [.existsCheck "abcd", .createWrite "abcd"] :=
  c10_delete_then_recreate "b" stLive "abcd" "http://example.com" 0 0 drawZero
    ⟨1, "abcd", "http://x.example.com", 0, none, 0, none, false⟩
    (by decide) (by decide) (by decide) (by decide) (by decide)

/-- C9: the hours-lookback query parameter is handled exactly as the claim
states: for every query value v the effective integer passed to
`GetDetailedStats` equals the whole number of hours (truncated toward zero)
of the duration obtained by parsing v with an `h` suffix when that parse
succeeds, and equals 0 — the unbounded lookback — whenever the parse fails;
the empty value also yields 0 (consistently, since `"h"` alone fails to
parse). -/
theorem c9_hours_param (v : String) :
    parseHoursParam v = (parseDuration (v ++ "h")).elim 0 wholeHours ∧
    parseDuration ("" ++ "h") = none := by
  constructor
  · unfold parseHoursParam
    by_cases hv : v == ""
    · rw [if_pos hv]
      have hv' : v = "" := by simpa using hv
      subst hv'
      rfl
    · rw [if_neg hv]
      cases parseDuration (v ++ "h") with
      | none => rfl
      | some d => rfl
  · rfl

/-- Evaluation anchors for the duration-parsing model: plain integers gain an
hour unit, fractional values truncate, garbage and bare units fail, and a
sign is honoured. -/
theorem parseDuration_examples :
    parseDuration "24h" = some 86400000000000 ∧
    parseDuration "1.5h" = some 5400000000000 ∧
    parseDuration "abch" = none ∧
    parseDuration "30mh" = none ∧
    parseDuration "-5h" = some (-18000000000000) ∧
    parseHoursParam "24" = 24 ∧
    parseHoursParam "1.5" = 1 ∧
    parseHoursParam "-5" = -5 ∧
    parseHoursParam "" = 0 ∧
    parseHoursParam "abc" = 0 := by
  decide
